import Mathlib

/-!
Verification of the Model Instantiation & Result Extraction Engine of the
pipeline-optimizer app (`src/streamlit_app.py`).

The development shallowly embeds the pure content of the source:
* the value model of the execution namespace / Pyomo model attributes,
* the two-tier name resolution and numeric coercion of the `result_data`
  loop (lines 126-142),
* the per-kind formatting, the Vadinar residual-head override, the
  Chotila/Viramgam blanking, the zero-pump propagation and the efficiency
  percent conversion (lines 137-158),
* the `solve_model` instantiation failure behaviour (lines 62-71), and
* the sanitizer of `load_script` (lines 50-57).

Machine floats are idealised as exact rationals; `round(x, 2)` and the
`"%.2f"` rendering are modelled with round-half-to-even on exact rationals.
Python text is modelled as `List Char`; the line boundary is LF.
-/

namespace PipelineOpt

/-- A value reachable through `ns.get(varname)` / `getattr(model, varname)`
in the extraction loop (src lines 132-136):
* `num q`  : a plain Python `int`/`float`; `float(pyo.value(v))` succeeds and
  returns it unchanged;
* `sym q`  : a Pyomo variable/expression object whose `pyo.value` evaluates
  to the numeric scalar `q`;
* `bad`    : any other object (including a stored `None`, a string, or a
  stale variable): `float(pyo.value(v))` raises and the `isinstance`
  fallback yields `None`. -/
inductive PyVal where
  | num (q : ℚ)
  | sym (q : ℚ)
  | bad
deriving DecidableEq

/-- The pair of lookup structures of the extraction loop: the `exec`
namespace dictionary `ns` and the attribute map of the bound `model`
object, each modelled as an association list (first binding wins, as in a
Python dict/attribute table). -/
structure Env where
  ns : List (String × PyVal)
  model : List (String × PyVal)
deriving DecidableEq

/-- `ns.get(varname) if varname in ns else getattr(model, varname, None)`
(src line 132). -/
def Env.lookupName (e : Env) (name : String) : Option PyVal :=
  match e.ns.lookup name with
  | some v => some v
  | none => e.model.lookup name

/-- Lines 133-136: `try: num = float(pyo.value(v_obj)) except: num =
float(v_obj) if isinstance(v_obj, (int, float)) else None`, applied to the
two-tier lookup result; a miss in both places gives `v_obj = None`, hence
`None`. -/
def resolveRaw (e : Env) (name : String) : Option ℚ :=
  match e.lookupName name with
  | some (PyVal.num q) => some q
  | some (PyVal.sym q) => some q
  | some PyVal.bad => none
  | none => none

/-- Which per-station index field a parameter kind uses (src lines 98-113:
`'idx'` or `'dr_idx'`). -/
inductive KeyFld where
  | idx
  | dr_idx
deriving DecidableEq

/-- One entry of `stations_info` (src lines 88-95). -/
structure StationInf where
  name : String
  idx : String
  dr_idx : Option String
deriving DecidableEq

/-- `info.get(keyfld)` (src line 127). -/
def StationInf.get (st : StationInf) : KeyFld → Option String
  | KeyFld.idx => some st.idx
  | KeyFld.dr_idx => st.dr_idx

def vadinar : StationInf := ⟨"Vadinar", "1", some "1"⟩
def jamnagar : StationInf := ⟨"Jamnagar", "2", some "2"⟩
def rajkot : StationInf := ⟨"Rajkot", "3", some "3"⟩
def chotila : StationInf := ⟨"Chotila", "4", none⟩
def surendranagar : StationInf := ⟨"Surendranagar", "5", some "4"⟩
def viramgam : StationInf := ⟨"Viramgam", "6", none⟩

/-- `stations_info` (src lines 88-95). -/
def stations_info : List StationInf :=
  [vadinar, jamnagar, rajkot, chotila, surendranagar, viramgam]

/-- `params` (src lines 98-113): label, base entity-name fragment, index
field. -/
def params : List (String × String × KeyFld) :=
  [ ("No. of Pumps", "NOP", KeyFld.idx),
    ("Drag Reduction (%)", "DR", KeyFld.dr_idx),
    ("Maximum Allowable Operating Pressure (bar)", "MAOP", KeyFld.idx),
    ("Velocity (m/s)", "v", KeyFld.idx),
    ("Reynolds Number", "Re", KeyFld.idx),
    ("Friction Factor", "f", KeyFld.idx),
    ("Dynamic Head Loss (m)", "DH", KeyFld.idx),
    ("Head developed by each Pump (m)", "TDHA_PUMP", KeyFld.idx),
    ("Pump Speed (RPM)", "N", KeyFld.idx),
    ("Pump Efficiency (%)", "EFFP", KeyFld.idx),
    ("Station Discharge Head (m)", "SDHA", KeyFld.idx),
    ("Residual Head (m)", "RH", KeyFld.idx),
    ("Power Cost (₹)", "OF_POWER", KeyFld.idx),
    ("DRA Cost (₹)", "OF_DRA", KeyFld.idx) ]

/-- `keys = list(params.keys())` (src line 116). -/
def keys : List String := params.map (fun t => t.1)

/-- `keys.index('No. of Pumps')` (src line 117). -/
def p_idx : Nat := keys.indexOf "No. of Pumps"

/-- `keys.index('Pump Speed (RPM)')` (src line 118). -/
def s_idx : Nat := keys.indexOf "Pump Speed (RPM)"

/-- `keys.index('Pump Efficiency (%)')` (src line 119). -/
def e_idx : Nat := keys.indexOf "Pump Efficiency (%)"

/-- `keys.index('Residual Head (m)')` (src line 120). -/
def rh_idx : Nat := keys.indexOf "Residual Head (m)"

/-- Round-half-to-even of the fraction `a / b` (`b ≠ 0`) to the nearest
integer: the tie-breaking rule of Python 3 `round` and of `"%.2f"`
formatting, on the exact-rational idealisation of the source's floats.
Working on numerator/denominator keeps the definition kernel-computable
(the rational arithmetic of the ambient library is `irreducible`). -/
def roundHalfEvenND (a : ℤ) (b : ℕ) : ℤ :=
  let f : ℤ := Int.fdiv a (b : ℤ)
  let r : ℤ := a - f * (b : ℤ)
  if 2 * r < (b : ℤ) then f
  else if (b : ℤ) < 2 * r then f + 1
  else if f % 2 = 0 then f else f + 1

/-- The number of hundredths in `q` after round-half-to-even at the second
decimal place: `q * 100` is exactly `q.num * 100 / q.den`. -/
def hundredths (q : ℚ) : ℤ := roundHalfEvenND (q.num * 100) q.den

/-- `round(num, 2)` (src line 141) on the exact-rational idealisation. -/
def round2 (q : ℚ) : ℚ := mkRat (hundredths q) 100

/-- Python `int()` truncation toward zero (src line 139), computed on the
numerator (the denominator is positive). -/
def pyTrunc (q : ℚ) : ℤ :=
  if 0 ≤ q.num then Int.fdiv q.num (q.den : ℤ) else - Int.fdiv (- q.num) (q.den : ℤ)

/-- Two-digit zero-padded rendering of the fractional hundredths. -/
def twoPad (k : Nat) : String := (if k < 10 then "0" else "") ++ toString k

/-- `f"{x:.2f}"`: fixed two-decimal rendering of an exact rational, with
round-half-to-even on the hundredths. -/
def formatFixed2 (x : ℚ) : String :=
  let n : ℤ := hundredths x
  (if n < 0 then "-" else "") ++ toString (n.natAbs / 100) ++ "." ++ twoPad (n.natAbs % 100)

/-- `f"{eff_frac*100:.2f}%"` (src line 158): `eff_frac * 100` is exactly
`mkRat (eff_frac.num * 100) eff_frac.den`. -/
def pctString (q : ℚ) : String := formatFixed2 (mkRat (q.num * 100) q.den) ++ "%"

/-- One cell of the transposed result table: Python `None`, an `int` (pump
counts), a `float` (all other numeric kinds), or a percent string. -/
inductive Cell where
  | null
  | int (n : ℤ)
  | num (q : ℚ)
  | str (s : String)
deriving DecidableEq

/-- Python `cell == 0` on the heterogeneous cell (src lines 152, 156):
`None == 0` and `'0.00%' == 0` are `False`; `int`/`float` compare
numerically. -/
def pyEqZero : Cell → Bool
  | Cell.int n => n = 0
  | Cell.num q => q = 0
  | _ => false

/-- The per-kind numeric formatting of lines 138-141: pump counts are
truncated to `int`, every other resolved numeric is `round(num, 2)`. -/
def formatCell (label : String) (num : Option ℚ) : Cell :=
  match num with
  | none => Cell.null
  | some q =>
    if label = "No. of Pumps" then Cell.int (pyTrunc q) else Cell.num (round2 q)

/-- One pre-override cell of the row loop (src lines 126-142): a `None`
index field yields `None`, otherwise the entity `base ++ suffix` is
resolved and formatted. -/
def rawCell (e : Env) (st : StationInf) (label base : String) (kf : KeyFld) : Cell :=
  match st.get kf with
  | none => Cell.null
  | some suffix => formatCell label (resolveRaw e (base ++ suffix))

/-- The efficiency percent conversion of lines 157-158:
`f"{eff_frac*100:.2f}%" if eff_frac is not None else None`.  At `e_idx`
the cell is always `None` or a rounded `float`; the remaining constructors
are unreachable there and are left fixed. -/
def effPercent : Cell → Cell
  | Cell.null => Cell.null
  | Cell.num q => Cell.str (pctString q)
  | c => c

/-- The complete per-station row of the `result_data` loop
(src lines 124-159): raw extraction and formatting, then the Vadinar
residual-head override, the Chotila/Viramgam blanking, the zero-pump
propagation and the efficiency percent conversion, in source order. -/
def buildRow (e : Env) (st : StationInf) : List Cell :=
  let row0 := params.map (fun t => rawCell e st t.1 t.2.1 t.2.2)
  let row1 := if st.name = "Vadinar" then row0.set rh_idx (Cell.num 50) else row0
  let row2 :=
    if st.name = "Chotila" ∨ st.name = "Viramgam" then
      (List.replicate keys.length Cell.null).set rh_idx (row1.getD rh_idx Cell.null)
    else row1
  let row3 :=
    if (¬ (st.name = "Chotila" ∨ st.name = "Viramgam")) ∧
        pyEqZero (row2.getD p_idx Cell.null) = true then
      (row2.set s_idx (Cell.num 0)).set e_idx (Cell.str "0.00%")
    else row2
  if (¬ (st.name = "Chotila" ∨ st.name = "Viramgam")) ∧
      ¬ pyEqZero (row3.getD p_idx Cell.null) = true then
    row3.set e_idx (effPercent (row3.getD e_idx Cell.null))
  else row3

/-- `result_data` (src lines 123-159): the transposed table, one column per
station. -/
def result_data (e : Env) : List (String × List Cell) :=
  stations_info.map (fun st => (st.name, buildRow e st))

/-- The spec's fatal error taxonomy for the instantiation phase
(`ModelDefinitionError` names the exception that propagates out of
`solve_model` when `exec` raises or leaves `model` unbound). -/
inductive RunError where
  | modelDefinitionError
deriving DecidableEq

/-- Outcome of `exec(SCRIPT, ns)` (src line 67), abstracted: the template
text `opt.txt` is external to the repository, so its evaluation is a
parameter of the embedding.  `done ns m?` carries the final namespace and,
when the template bound an entity named `model`, that entity's (post-solve)
attribute map. -/
inductive ExecResult where
  | raises
  | done (ns : List (String × PyVal)) (modelAttrs : Option (List (String × PyVal)))

/-- `solve_model` (src lines 62-71): a raising `exec`, or a namespace with
no `model` binding (`ns['model']` raises `KeyError`), aborts the run; the
propagated exception is the spec's `ModelDefinitionError`.  Otherwise the
model and namespace are returned (solver mutation is already reflected in
the attribute values). -/
def solve_model : ExecResult → Except RunError Env
  | ExecResult.raises => Except.error RunError.modelDefinitionError
  | ExecResult.done _ none => Except.error RunError.modelDefinitionError
  | ExecResult.done ns (some m) => Except.ok ⟨ns, m⟩

/-- The run pipeline of the main branch (src lines 74-164): instantiation
failure aborts before any table is produced; otherwise the full
`result_data` table is built. -/
def runApp (r : ExecResult) : Except RunError (List (String × List Cell)) :=
  match solve_model r with
  | Except.error err => Except.error err
  | Except.ok env => Except.ok (result_data env)

/-! ### The sanitizer of `load_script` (src lines 50-57)

Python text is modelled as `List Char` with LF as the line boundary.  The
two regex substitutions `re.sub(r'.*input\(.*', '', code)` and
`re.sub(r'print\(.*', '', code)` are applied to the joined text in the
source; because `.` does not match a newline and neither pattern contains
one, every match lies within a single line, so they are embedded as
per-line transformations: a line containing `input(` matches
`.*input\(.*` in whole and is emptied; in any other line the single match
of `print\(.*` runs from the first occurrence of `print(` to the end of
the line. -/

/-- Split at every LF, keeping empty pieces (`"a\n\n"` gives
`["a", "", ""]`); the result is always nonempty. -/
def splitNL : List Char → List (List Char)
  | [] => [[]]
  | c :: t =>
    match splitNL t with
    | [] => [[]]
    | a :: as => if c = '\n' then [] :: a :: as else (c :: a) :: as

/-- `'\n'.join(lines)` (src line 54). -/
def joinNL : List (List Char) → List Char
  | [] => []
  | [l] => l
  | l :: ls => l ++ '\n' :: joinNL ls

/-- Python `str.splitlines()` (src line 53) restricted to LF boundaries:
split at every LF and drop the final piece when the text ends with LF
(`"a\n".splitlines() == ["a"]`, `"".splitlines() == []`). -/
def splitlinesPy (s : List Char) : List (List Char) :=
  let p := splitNL s
  if p.getLast? = some [] then p.dropLast else p

/-- The whitespace stripped by Python `str.strip()`. -/
def isSpacePy (c : Char) : Bool :=
  c = ' ' ∨ c = '\t' ∨ c = '\n' ∨ c = '\r' ∨ c = '\x0b' ∨ c = '\x0c'

/-- Python `str.strip()`: drop whitespace from both ends. -/
def stripPy (s : List Char) : List Char :=
  ((s.dropWhile isSpacePy).reverse.dropWhile isSpacePy).reverse

/-- The right-strip half of `stripPy`. -/
def rstripPy (s : List Char) : List Char := (s.reverse.dropWhile isSpacePy).reverse

/-- Python `s.startswith(pat)`. -/
def startsWithPy : List Char → List Char → Bool
  | _, [] => true
  | [], _ :: _ => false
  | c :: s, p :: ps => c = p && startsWithPy s ps

/-- Does `pat` occur as a contiguous substring of `s`? -/
def containsSub (pat : List Char) : List Char → Bool
  | [] => pat.isEmpty
  | c :: t => startsWithPy (c :: t) pat || containsSub pat t

/-- Everything strictly before the first occurrence of `pat` (the whole
list when `pat` does not occur). -/
def takeBefore (pat : List Char) : List Char → List Char
  | [] => []
  | c :: t => if startsWithPy (c :: t) pat then [] else c :: takeBefore pat t

def inputPat : List Char := ['i', 'n', 'p', 'u', 't', '(']

def printPat : List Char := ['p', 'r', 'i', 'n', 't', '(']

def bangPip : List Char := ['!', 'p', 'i', 'p']

/-- `re.sub(r'.*input\(.*', '', ...)` restricted to one line (src line 55):
a line containing `input(` is matched in whole and replaced by the empty
string. -/
def subInput (l : List Char) : List Char := if containsSub inputPat l then [] else l

/-- `re.sub(r'print\(.*', '', ...)` restricted to one line (src line 56):
the match runs from the first occurrence of `print(` to the end of the
line. -/
def subPrint (l : List Char) : List Char := takeBefore printPat l

/-- The combined per-line effect of the two substitutions, in source
order. -/
def sanitizeLine (l : List Char) : List Char := subPrint (subInput l)

/-- The line filter of src line 53: drop lines whose stripped text starts
with `!pip`. -/
def pyLines (txt : List Char) : List (List Char) :=
  (splitlinesPy txt).filter (fun l => ! startsWithPy (stripPy l) bangPip)

/-- The pure text transformation of `load_script` (src lines 53-57): drop
`!pip` lines, join with LF, and apply the two substitutions. -/
def sanitize (txt : List Char) : List Char :=
  joinNL ((pyLines txt).map sanitizeLine)

/-- `p` is an initial segment of `l`. -/
def isInit (p l : List Char) : Prop := ∃ r, p ++ r = l

/-- Concrete environment for the C1 witness: a symbolic context entry and
a model-only numeric entry. -/
def wC1 : Env := ⟨[("MAOP2", PyVal.sym (mkRat 55 1))], [("RH6", PyVal.num (mkRat 40 1))]⟩

/-- Concrete environment for the C2 witness: zero pump count with nonzero
raw speed and efficiency. -/
def wC2 : Env :=
  ⟨[("NOP1", PyVal.num 0), ("N1", PyVal.sym (mkRat 2950 1)),
    ("EFFP1", PyVal.sym (mkRat 8571 10000))], []⟩

/-- Concrete environment for the C5 witness: `EFFP2 = 0.85`, `NOP2 = 3`. -/
def wC5 : Env := ⟨[("EFFP2", PyVal.num (mkRat 85 100)), ("NOP2", PyVal.num 3)], []⟩

/-- Concrete environment for the C9 witness: a fractional solved pump
count. -/
def wC9 : Env := ⟨[("NOP2", PyVal.num (mkRat 1 2)), ("N2", PyVal.sym (mkRat 1480 1))], []⟩

/-- Concrete environment for C10: `EFFP2 = 0.8571`, `NOP2 = 1`. -/
def wC10 : Env := ⟨[("EFFP2", PyVal.num (mkRat 8571 10000)), ("NOP2", PyVal.num 1)], []⟩

/-- Concrete input refuting idempotence of the sanitizer: its second line
is a `print` statement, so the first pass leaves a trailing empty line
that the second pass removes. -/
def c6txt : List Char := "a = 1\nprint(a)".toList

/-- Concrete input refuting C7: a mixed line that is not solely a console
statement, yet does not pass through unchanged. -/
def c7txt : List Char := "x = 1; print(x)".toList

/-- Concrete input for the C6 witness. -/
def c6wit : List Char := "a = 1\nb = FLOW".toList

/-- Concrete input for the C7 witness. -/
def c7wit : List Char := "z = 2\ny = input()".toList

/-! ### Helper lemmas -/

/-- Every branch of the row loop yields a full-width row: the table is
produced cell by cell, never aborted. -/
theorem buildRow_length (e : Env) (st : StationInf) :
    (buildRow e st).length = keys.length := by
  simp [buildRow, apply_ite List.length, keys]

theorem p_idx_val : p_idx = 0 := by decide

theorem s_idx_val : s_idx = 8 := by decide

theorem e_idx_val : e_idx = 9 := by decide

theorem rh_idx_val : rh_idx = 11 := by decide

/-! ### C1: two-tier resolution, coercion, and best-effort extraction -/

/-- C1: a constructed entity name is looked up first in the
ExecutionContext and only on a miss in the ModelInstance; a symbolic value
is coerced to its numeric scalar, an already numeric value is returned
as-is, a name found in neither place yields a null record instead of an
error, and every station row is still produced in full width. -/
theorem C1_resolution_order (e : Env) (name : String) :
    (∀ v, e.ns.lookup name = some v → e.lookupName name = some v) ∧
    (e.ns.lookup name = none → e.lookupName name = e.model.lookup name) ∧
    (∀ q, e.lookupName name = some (PyVal.sym q) → resolveRaw e name = some q) ∧
    (∀ q, e.lookupName name = some (PyVal.num q) → resolveRaw e name = some q) ∧
    (e.lookupName name = none → resolveRaw e name = none) ∧
    (∀ st label base kf suffix, st.get kf = some suffix →
      resolveRaw e (base ++ suffix) = none →
      rawCell e st label base kf = Cell.null) ∧
    (∀ st, (buildRow e st).length = keys.length) := by
  refine ⟨?_, ?_, ?_, ?_, ?_, ?_, fun st => buildRow_length e st⟩
  · intro v h; simp [Env.lookupName, h]
  · intro h; simp [Env.lookupName, h]
  · intro q h; simp [resolveRaw, h]
  · intro q h; simp [resolveRaw, h]
  · intro h; simp [resolveRaw, h]
  · intro st label base kf suffix h1 h2; simp [rawCell, h1, h2, formatCell]

/-- Witness for C1 at a concrete environment: a symbolic context entry, a
model-only numeric entry, a miss, and a null record for the miss. -/
theorem C1_witness :
    resolveRaw wC1 "MAOP2" = some (mkRat 55 1) ∧
    resolveRaw wC1 "RH6" = some (mkRat 40 1) ∧
    resolveRaw wC1 "ZZZ9" = none ∧
    rawCell wC1 rajkot "Velocity (m/s)" "v" KeyFld.idx = Cell.null := by
  refine ⟨(C1_resolution_order wC1 "MAOP2").2.2.1 _ (by decide),
          (C1_resolution_order wC1 "RH6").2.2.2.1 _ (by decide),
          (C1_resolution_order wC1 "ZZZ9").2.2.2.2.1 (by decide),
          (C1_resolution_order wC1 "v3").2.2.2.2.2.1 rajkot "Velocity (m/s)" "v"
            KeyFld.idx "3" (by decide) (by decide)⟩

/-! ### C2: zero-pump propagation -/

/-- C2: at every pumping station whose pump-count entity resolves to
zero, the formatted speed record is `0.00` and the efficiency record is
the string `"0.00%"`, whatever the solved speed and efficiency entities
hold (e.g. station 1 with `NOP1 = 0` and arbitrary `N1`, `EFFP1`). -/
theorem C2_zero_pump_propagation (e : Env) (st : StationInf)
    (hst : st = vadinar ∨ st = jamnagar ∨ st = rajkot ∨ st = surendranagar)
    (h : resolveRaw e ("NOP" ++ st.idx) = some 0) :
    (buildRow e st).getD s_idx Cell.null = Cell.num 0 ∧
    (buildRow e st).getD e_idx Cell.null = Cell.str "0.00%" := by
  rcases hst with rfl | rfl | rfl | rfl
  · have h' : resolveRaw e "NOP1" = some 0 := h
    constructor <;>
      simp [buildRow, vadinar, rawCell, StationInf.get, params, keys,
        p_idx_val, s_idx_val, e_idx_val, rh_idx_val, h', formatCell, pyTrunc, pyEqZero]
  · have h' : resolveRaw e "NOP2" = some 0 := h
    constructor <;>
      simp [buildRow, jamnagar, rawCell, StationInf.get, params, keys,
        p_idx_val, s_idx_val, e_idx_val, rh_idx_val, h', formatCell, pyTrunc, pyEqZero]
  · have h' : resolveRaw e "NOP3" = some 0 := h
    constructor <;>
      simp [buildRow, rajkot, rawCell, StationInf.get, params, keys,
        p_idx_val, s_idx_val, e_idx_val, rh_idx_val, h', formatCell, pyTrunc, pyEqZero]
  · have h' : resolveRaw e "NOP5" = some 0 := h
    constructor <;>
      simp [buildRow, surendranagar, rawCell, StationInf.get, params, keys,
        p_idx_val, s_idx_val, e_idx_val, rh_idx_val, h', formatCell, pyTrunc, pyEqZero]

/-- Witness for C2: a concrete context with `NOP1 = 0` and nonzero raw
speed/efficiency entities. -/
theorem C2_witness :
    (buildRow wC2 vadinar).getD s_idx Cell.null = Cell.num 0 ∧
    (buildRow wC2 vadinar).getD e_idx Cell.null = Cell.str "0.00%" :=
  C2_zero_pump_propagation wC2 vadinar (Or.inl rfl) (by decide)

/-! ### C3: the Vadinar residual-head override -/

/-- C3: for the first station (Vadinar) and the residual-head kind, the
formatted record is the fixed constant `50.00` whatever the
ExecutionContext and ModelInstance hold. -/
theorem C3_vadinar_rh_override (e : Env) :
    (buildRow e vadinar).getD rh_idx Cell.null = Cell.num 50 := by
  by_cases hz : pyEqZero (formatCell "No. of Pumps" (resolveRaw e "NOP1")) = true <;>
    simp [buildRow, vadinar, rawCell, StationInf.get, params, keys,
      p_idx_val, s_idx_val, e_idx_val, rh_idx_val, hz]

/-! ### C4: applicability blanking at the intermediate stations -/

/-- C4: at the two intermediate non-pumping stations (Chotila, Viramgam)
every parameter kind other than residual head yields a null record,
whatever entities exist in the ExecutionContext or ModelInstance. -/
theorem C4_applicability (e : Env) (st : StationInf)
    (hst : st = chotila ∨ st = viramgam) (i : Nat) (hi : i < keys.length)
    (hne : ¬ i = rh_idx) :
    (buildRow e st).getD i Cell.null = Cell.null := by
  have hne' : ¬ i = 11 := by rwa [rh_idx_val] at hne
  have hlen : i < 14 := by simpa [keys, params] using hi
  rcases hst with rfl | rfl <;> interval_cases i <;>
    first
      | rfl
      | exact absurd rfl hne'

/-- Witness for C4: the velocity kind at Chotila is null although a
matching entity `v4` exists in the context. -/
theorem C4_witness :
    (buildRow ⟨[("v4", PyVal.num (mkRat 5 1))], []⟩ chotila).getD 3 Cell.null = Cell.null :=
  C4_applicability _ chotila (Or.inl rfl) 3 (by decide) (by decide)

/-! ### C5: per-kind formatting round trip -/

/-- C5: an efficiency raw value `0.85` is displayed as `"85.00%"`, a
pump-count raw value `3.0` as the integer `3`, and every other numeric
kind as its value rounded to two decimal places. -/
theorem C5_formatting_round_trip :
    (buildRow wC5 jamnagar).getD e_idx Cell.null = Cell.str "85.00%" ∧
    (buildRow wC5 jamnagar).getD p_idx Cell.null = Cell.int 3 ∧
    (∀ label q, ¬ label = "No. of Pumps" → formatCell label (some q) = Cell.num (round2 q)) ∧
    (∀ q : ℚ, ∃ n : ℤ, round2 q = (n : ℚ) / 100) := by
  refine ⟨by decide, by decide, ?_, ?_⟩
  · intro label q hl
    simp [formatCell, hl]
  · intro q
    refine ⟨hundredths q, ?_⟩
    rw [round2, Rat.mkRat_eq_div]
    norm_num

/-- Witness for C5's rounding conjunct at a concrete non-pump-count kind
and value. -/
theorem C5_witness :
    formatCell "Velocity (m/s)" (some (mkRat 12345 1000)) =
      Cell.num (round2 (mkRat 12345 1000)) :=
  C5_formatting_round_trip.2.2.1 "Velocity (m/s)" (mkRat 12345 1000) (by decide)

/-! ### C8: instantiation failure is fatal -/

/-- C8: when template evaluation raises, or completes without binding the
entity `model`, the run aborts with the spec's `ModelDefinitionError` and
no output table is produced. -/
theorem C8_instantiation_failure_is_fatal :
    runApp ExecResult.raises = Except.error RunError.modelDefinitionError ∧
    ∀ ns, runApp (ExecResult.done ns none) = Except.error RunError.modelDefinitionError :=
  ⟨rfl, fun _ => rfl⟩

/-! ### C9: pump counts are truncated toward zero -/

/-- C9: the displayed pump count is `int(num)`, truncation toward zero:
any solved count in `[0, 1)` is displayed as `0` and triggers the
zero-propagation of speed and efficiency, and a solved count of `2.9` is
displayed as `2`. -/
theorem C9_truncation (e : Env) (st : StationInf) (q : ℚ)
    (hst : st = vadinar ∨ st = jamnagar ∨ st = rajkot ∨ st = surendranagar)
    (h : resolveRaw e ("NOP" ++ st.idx) = some q)
    (h0 : 0 ≤ q) (h1 : q < 1) :
    (buildRow e st).getD p_idx Cell.null = Cell.int 0 ∧
    (buildRow e st).getD s_idx Cell.null = Cell.num 0 ∧
    (buildRow e st).getD e_idx Cell.null = Cell.str "0.00%" ∧
    formatCell "No. of Pumps" (some (mkRat 29 10)) = Cell.int 2 := by
  have hnum : 0 ≤ q.num := Rat.num_nonneg.mpr h0
  have hlt : q.num < (q.den : ℤ) := by
    rwa [Rat.lt_one_iff_num_lt_denom] at h1
  have ht : pyTrunc q = 0 := by
    rw [pyTrunc, if_pos hnum, Int.fdiv_eq_ediv _ (by positivity)]
    exact Int.ediv_eq_zero_of_lt hnum hlt
  rcases hst with rfl | rfl | rfl | rfl
  · have h' : resolveRaw e "NOP1" = some q := h
    refine ⟨?_, ?_, ?_, by decide⟩ <;>
      simp [buildRow, vadinar, rawCell, StationInf.get, params, keys,
        p_idx_val, s_idx_val, e_idx_val, rh_idx_val, h', formatCell, ht, pyEqZero]
  · have h' : resolveRaw e "NOP2" = some q := h
    refine ⟨?_, ?_, ?_, by decide⟩ <;>
      simp [buildRow, jamnagar, rawCell, StationInf.get, params, keys,
        p_idx_val, s_idx_val, e_idx_val, rh_idx_val, h', formatCell, ht, pyEqZero]
  · have h' : resolveRaw e "NOP3" = some q := h
    refine ⟨?_, ?_, ?_, by decide⟩ <;>
      simp [buildRow, rajkot, rawCell, StationInf.get, params, keys,
        p_idx_val, s_idx_val, e_idx_val, rh_idx_val, h', formatCell, ht, pyEqZero]
  · have h' : resolveRaw e "NOP5" = some q := h
    refine ⟨?_, ?_, ?_, by decide⟩ <;>
      simp [buildRow, surendranagar, rawCell, StationInf.get, params, keys,
        p_idx_val, s_idx_val, e_idx_val, rh_idx_val, h', formatCell, ht, pyEqZero]

/-! ### C10: the percent display is quantised to whole percents -/

theorem roundHalfEvenND_one (a : ℤ) : roundHalfEvenND a 1 = a := by
  simp [roundHalfEvenND]

theorem hundredths_intCast (m : ℤ) : hundredths ((m : ℚ)) = m * 100 := by
  rw [hundredths, Rat.num_intCast, Rat.den_intCast, roundHalfEvenND_one]

/-- The argument of the percent formatting of `pctString` at a
two-decimal-rounded value is the integer number of hundredths. -/
theorem pct_arg_of_round2 (q : ℚ) :
    mkRat ((round2 q).num * 100) (round2 q).den = ((hundredths q : ℤ) : ℚ) := by
  have hden : ((round2 q).den : ℚ) ≠ 0 := by positivity
  have hnum : ((round2 q).num : ℚ) = round2 q * (round2 q).den := by
    have h0 := Rat.num_div_den (round2 q)
    rwa [div_eq_iff hden] at h0
  have hval : (round2 q : ℚ) * 100 = ((hundredths q : ℤ) : ℚ) := by
    rw [round2, Rat.mkRat_eq_div]
    norm_num
  rw [Rat.mkRat_eq_div]
  push_cast
  field_simp
  rw [hnum, mul_right_comm, hval]

/-- C10: because `round(num, 2)` is applied before the `*100` percent
conversion, every displayed efficiency percentage ends in `.00%` (a whole
number of percents); a raw fraction `0.8571` is displayed as `"86.00%"`,
not `"85.71%"`. -/
theorem C10_percent_quantisation :
    (∀ q : ℚ, ∃ pre : String, pctString (round2 q) = pre ++ ".00%") ∧
    (buildRow wC10 jamnagar).getD e_idx Cell.null = Cell.str "86.00%" := by
  refine ⟨?_, by decide⟩
  intro q
  refine ⟨(if (hundredths q * 100 : ℤ) < 0 then "-" else "") ++
    toString (hundredths q).natAbs, ?_⟩
  rw [pctString, pct_arg_of_round2]
  simp only [formatFixed2, hundredths_intCast]
  have habs : (hundredths q * 100).natAbs = (hundredths q).natAbs * 100 := by
    simp [Int.natAbs_mul]
  rw [habs, Nat.mul_mod_left, Nat.mul_div_cancel _ (by norm_num)]
  simp [twoPad, String.append_assoc, show toString (0 : ℕ) = "0" from rfl]

/-- Witness for C9 at the concrete solved count `0.5`. -/
theorem C9_witness :
    (buildRow wC9 jamnagar).getD p_idx Cell.null = Cell.int 0 ∧
    (buildRow wC9 jamnagar).getD s_idx Cell.null = Cell.num 0 ∧
    (buildRow wC9 jamnagar).getD e_idx Cell.null = Cell.str "0.00%" ∧
    formatCell "No. of Pumps" (some (mkRat 29 10)) = Cell.int 2 :=
  C9_truncation wC9 jamnagar (mkRat 1 2) (Or.inr (Or.inl rfl)) (by decide)
    (by decide) (by decide)

/-! ### Sanitizer lemmas: splitting and joining -/

theorem splitNL_ne_nil (s : List Char) : splitNL s ≠ [] := by
  induction s with
  | nil => simp [splitNL]
  | cons c t ih =>
    rcases h : splitNL t with _ | ⟨a, as⟩
    · exact absurd h ih
    · simp only [splitNL, h]
      split <;> simp

theorem splitNL_cons_ex (s : List Char) : ∃ a as, splitNL s = a :: as := by
  rcases h : splitNL s with _ | ⟨a, as⟩
  · exact absurd h (splitNL_ne_nil s)
  · exact ⟨a, as, rfl⟩

theorem nl_not_mem_splitNL (s : List Char) : ∀ l ∈ splitNL s, '\n' ∉ l := by
  induction s with
  | nil =>
    intro l hl
    simp [splitNL] at hl
    simp [hl]
  | cons c t ih =>
    intro l hl
    rcases h : splitNL t with _ | ⟨a, as⟩
    · exact absurd h (splitNL_ne_nil t)
    · simp only [splitNL, h] at hl
      by_cases hc : c = '\n'
      · rw [if_pos hc] at hl
        rcases List.mem_cons.mp hl with rfl | hl
        · simp
        · exact ih l (h ▸ hl)
      · rw [if_neg hc] at hl
        rcases List.mem_cons.mp hl with rfl | hl
        · intro hmem
          rcases List.mem_cons.mp hmem with heq | hmem
          · exact hc heq.symm
          · exact ih a (by rw [h]; exact List.mem_cons_self a as) hmem
        · exact ih l (by rw [h]; exact List.mem_cons_of_mem a hl)

theorem splitNL_append_nl (m : List Char) (s : List Char) (hm : '\n' ∉ m) :
    splitNL (m ++ '\n' :: s) = m :: splitNL s := by
  induction m with
  | nil =>
    rcases splitNL_cons_ex s with ⟨a, as, h⟩
    simp [splitNL, h]
  | cons c m' ih =>
    have hc : ¬ c = '\n' := fun hh => hm (by simp [hh])
    have hm' : '\n' ∉ m' := fun hh => hm (List.mem_cons_of_mem c hh)
    simp only [List.cons_append, splitNL, List.append_eq, ih hm']
    rw [if_neg hc]

theorem splitNL_no_nl (m : List Char) (hm : '\n' ∉ m) : splitNL m = [m] := by
  induction m with
  | nil => rfl
  | cons c m' ih =>
    have hc : ¬ c = '\n' := fun hh => hm (by simp [hh])
    have hm' : '\n' ∉ m' := fun hh => hm (List.mem_cons_of_mem c hh)
    simp only [splitNL, ih hm']
    rw [if_neg hc]

theorem splitNL_joinNL (ms : List (List Char)) (h0 : ms ≠ [])
    (hnl : ∀ m ∈ ms, '\n' ∉ m) : splitNL (joinNL ms) = ms := by
  induction ms with
  | nil => exact absurd rfl h0
  | cons m rest ih =>
    rcases rest with _ | ⟨m2, rest'⟩
    · exact splitNL_no_nl m (hnl m (by simp))
    · rw [show joinNL (m :: m2 :: rest') = m ++ '\n' :: joinNL (m2 :: rest') from rfl,
        splitNL_append_nl m _ (hnl m (by simp)),
        ih (by simp) (fun l hl => hnl l (List.mem_cons_of_mem m hl))]

theorem joinNL_trailing_nl :
    ∀ (t : List (List Char)) (a b : List Char),
      (b :: t).getLast? = some [] → (joinNL (a :: b :: t)).getLast? = some '\n' := by
  intro t
  induction t with
  | nil =>
    intro a b hb
    simp only [List.getLast?_singleton, Option.some_inj] at hb
    subst hb
    rw [show joinNL [a, []] = a ++ '\n' :: [] from rfl, List.getLast?_append_cons]
    rfl
  | cons c t' ih =>
    intro a b hb
    have hb' : (c :: t').getLast? = some [] := by
      rwa [List.getLast?_cons_cons] at hb
    have hJ := ih b c hb'
    rw [show joinNL (a :: b :: c :: t') = a ++ '\n' :: joinNL (b :: c :: t') from rfl,
      List.getLast?_append_cons]
    have hne : joinNL (b :: c :: t') ≠ [] := by
      intro hnil
      rw [hnil] at hJ
      simp at hJ
    rcases hj : joinNL (b :: c :: t') with _ | ⟨j, js⟩
    · exact absurd hj hne
    · rw [List.getLast?_cons_cons, ← hj, hJ]

/-! ### Sanitizer lemmas: initial segments, occurrence, per-line behaviour -/

theorem isInit_refl (l : List Char) : isInit l l := ⟨[], List.append_nil l⟩

theorem isInit_nil (l : List Char) : isInit [] l := ⟨l, rfl⟩

theorem isInit_trans {a b c : List Char} (h1 : isInit a b) (h2 : isInit b c) :
    isInit a c := by
  rcases h1 with ⟨r1, rfl⟩
  rcases h2 with ⟨r2, rfl⟩
  exact ⟨r1 ++ r2, by rw [List.append_assoc]⟩

theorem isInit_extend {a b : List Char} (r : List Char) (h : isInit a b) :
    isInit a (b ++ r) := by
  rcases h with ⟨r1, rfl⟩
  exact ⟨r1 ++ r, by rw [List.append_assoc]⟩

theorem startsWithPy_iff (pat : List Char) :
    ∀ s, startsWithPy s pat = true ↔ isInit pat s := by
  induction pat with
  | nil =>
    intro s
    cases s <;> simp [startsWithPy, isInit_nil]
  | cons p ps ih =>
    intro s
    cases s with
    | nil =>
      simp only [startsWithPy]
      constructor
      · intro hh; cases hh
      · rintro ⟨r, hr⟩; cases hr
    | cons c t =>
      simp only [startsWithPy, Bool.and_eq_true, decide_eq_true_eq, ih t]
      constructor
      · rintro ⟨rfl, r, rfl⟩
        exact ⟨r, rfl⟩
      · rintro ⟨r, hr⟩
        rw [List.cons_append] at hr
        cases hr
        exact ⟨rfl, r, rfl⟩

theorem containsSub_nil_pat (l : List Char) : containsSub [] l = true := by
  cases l <;> simp [containsSub, startsWithPy]

theorem containsSub_of_isInit (pat : List Char) :
    ∀ p l, isInit p l → containsSub pat p = true → containsSub pat l = true := by
  intro p
  induction p with
  | nil =>
    intro l _ hc
    simp only [containsSub, List.isEmpty_iff] at hc
    subst hc
    exact containsSub_nil_pat l
  | cons c p' ih =>
    intro l hinit hc
    rcases hinit with ⟨r, rfl⟩
    simp only [containsSub, Bool.or_eq_true] at hc ⊢
    rcases hc with hc | hc
    · left
      rw [startsWithPy_iff] at hc ⊢
      exact isInit_trans hc (isInit_extend r (isInit_refl _))
    · right
      exact ih (p' ++ r) ⟨r, rfl⟩ hc

theorem takeBefore_isInit (pat : List Char) :
    ∀ l, isInit (takeBefore pat l) l := by
  intro l
  induction l with
  | nil => exact isInit_nil []
  | cons c t ih =>
    simp only [takeBefore]
    split
    · exact isInit_nil _
    · rcases ih with ⟨r, hr⟩
      exact ⟨r, by rw [List.cons_append, hr]⟩

theorem takeBefore_of_not_contains (pat : List Char) :
    ∀ l, containsSub pat l = false → takeBefore pat l = l := by
  intro l
  induction l with
  | nil => intro _; rfl
  | cons c t ih =>
    intro hc
    simp only [containsSub, Bool.or_eq_false_iff] at hc
    simp [takeBefore, hc.1, ih hc.2]

theorem takeBefore_no_occurrence (pat : List Char) (hpat : pat ≠ []) :
    ∀ l, containsSub pat (takeBefore pat l) = false := by
  intro l
  induction l with
  | nil =>
    simp [takeBefore, containsSub, List.isEmpty_iff, hpat]
  | cons c t ih =>
    simp only [takeBefore]
    split
    · simp [containsSub, List.isEmpty_iff, hpat]
    · rename_i hns
      simp only [containsSub, Bool.or_eq_false_iff]
      refine ⟨?_, ih⟩
      rcases pat with _ | ⟨p0, ps⟩
      · exact absurd rfl hpat
      · by_cases hcp : c = p0
        · subst hcp
          simp only [startsWithPy, Bool.and_eq_false_iff]
          right
          rcases hsw : startsWithPy (takeBefore (c :: ps) t) ps with _ | _
          · rfl
          · exfalso
            apply hns
            have h1 : isInit ps (takeBefore (c :: ps) t) :=
              (startsWithPy_iff ps _).mp hsw
            have h2 : isInit ps t := isInit_trans h1 (takeBefore_isInit (c :: ps) t)
            simp only [startsWithPy, Bool.and_eq_true, decide_eq_true_eq]
            exact ⟨trivial, (startsWithPy_iff ps t).mpr h2⟩
        · simp [startsWithPy, hcp]

theorem sanitizeLine_isInit (l : List Char) : isInit (sanitizeLine l) l := by
  rw [sanitizeLine, subInput]
  split
  · rw [show subPrint [] = [] from rfl]
    exact isInit_nil l
  · exact takeBefore_isInit printPat l

theorem sanitizeLine_no_nl {l : List Char} (h : '\n' ∉ l) :
    '\n' ∉ sanitizeLine l := by
  rcases sanitizeLine_isInit l with ⟨r, hr⟩
  intro hmem
  exact h (hr ▸ List.mem_append_left r hmem)

theorem sanitizeLine_idem (l : List Char) :
    sanitizeLine (sanitizeLine l) = sanitizeLine l := by
  by_cases hci : containsSub inputPat l = true
  · have h1 : sanitizeLine l = [] := by
      simp only [sanitizeLine, subInput]
      rw [if_pos hci]
      rfl
    rw [h1]
    rfl
  · have hci' : containsSub inputPat l = false := by
      rcases hc : containsSub inputPat l with _ | _
      · rfl
      · exact absurd hc hci
    have h1 : sanitizeLine l = takeBefore printPat l := by
      simp only [sanitizeLine, subInput]
      rw [if_neg (by simp [hci'])]
      rfl
    have hno : containsSub printPat (takeBefore printPat l) = false :=
      takeBefore_no_occurrence printPat (by simp [printPat]) l
    have hni : containsSub inputPat (takeBefore printPat l) = false := by
      rcases hc : containsSub inputPat (takeBefore printPat l) with _ | _
      · rfl
      · exact absurd (containsSub_of_isInit inputPat _ l
          (takeBefore_isInit printPat l) hc) (by simp [hci'])
    rw [h1]
    simp only [sanitizeLine, subInput]
    rw [if_neg (by simp [hni])]
    simp only [subPrint]
    exact takeBefore_of_not_contains printPat _ hno
/-! ### Sanitizer lemmas: stripping and the directive filter -/

theorem stripPy_eq (s : List Char) :
    stripPy s = rstripPy (s.dropWhile isSpacePy) := rfl

theorem dropWhile_append_of_ne_nil (p : Char → Bool) :
    ∀ (a b : List Char), a.dropWhile p ≠ [] →
      (a ++ b).dropWhile p = a.dropWhile p ++ b := by
  intro a
  induction a with
  | nil => intro b hh; exact absurd rfl hh
  | cons c a' ih =>
    intro b hh
    rcases hc : p c with _ | _
    · simp [List.dropWhile_cons, hc]
    · rw [List.dropWhile_cons, if_pos (by simp [hc])] at hh
      simp only [List.cons_append, List.dropWhile_cons, hc, if_pos]
      exact ih b hh

theorem dropWhile_append_all (p : Char → Bool) :
    ∀ (a b : List Char), a.dropWhile p = [] →
      (a ++ b).dropWhile p = b.dropWhile p := by
  intro a
  induction a with
  | nil => intro b _; rfl
  | cons c a' ih =>
    intro b hh
    rcases hc : p c with _ | _
    · rw [List.dropWhile_cons, if_neg (by simp [hc])] at hh
      cases hh
    · rw [List.dropWhile_cons, if_pos (by simp [hc])] at hh
      simp only [List.cons_append, List.dropWhile_cons, hc, if_pos]
      exact ih b hh

theorem rstripPy_isInit (s : List Char) : isInit (rstripPy s) s := by
  refine ⟨(s.reverse.takeWhile isSpacePy).reverse, ?_⟩
  rw [rstripPy, ← List.reverse_append, List.takeWhile_append_dropWhile,
    List.reverse_reverse]

theorem startsWithPy_rstrip_of (pat : List Char) (hpat : pat ≠ [])
    (hns : ∀ c ∈ pat, isSpacePy c = false) (s : List Char)
    (h : startsWithPy s pat = true) : startsWithPy (rstripPy s) pat = true := by
  rcases (startsWithPy_iff pat s).mp h with ⟨t, rfl⟩
  rcases hdw : t.reverse.dropWhile isSpacePy with _ | ⟨d, ds⟩
  · have h2 : (pat ++ t).reverse.dropWhile isSpacePy = pat.reverse := by
      rw [List.reverse_append, dropWhile_append_all _ _ _ hdw]
      rcases hpr : pat.reverse with _ | ⟨c, cs⟩
      · exact absurd (by simpa using congrArg List.reverse hpr) hpat
      · have hcmem : c ∈ pat := by
          rw [← List.mem_reverse, hpr]
          exact List.mem_cons_self c cs
        rw [List.dropWhile_cons, if_neg (by simp [hns c hcmem])]
    rw [rstripPy, h2, List.reverse_reverse]
    exact (startsWithPy_iff pat pat).mpr (isInit_refl pat)
  · have hne : t.reverse.dropWhile isSpacePy ≠ [] := by rw [hdw]; simp
    have h2 : (pat ++ t).reverse.dropWhile isSpacePy
        = t.reverse.dropWhile isSpacePy ++ pat.reverse := by
      rw [List.reverse_append]
      exact dropWhile_append_of_ne_nil _ _ _ hne
    rw [rstripPy, h2, List.reverse_append, List.reverse_reverse]
    exact (startsWithPy_iff _ _).mpr (isInit_extend _ (isInit_refl pat))

theorem startsWithPy_of_rstrip (pat s : List Char)
    (h : startsWithPy (rstripPy s) pat = true) : startsWithPy s pat = true := by
  rw [startsWithPy_iff] at h ⊢
  exact isInit_trans h (rstripPy_isInit s)

/-- The `!pip` directive test survives per-line sanitisation: if the
stripped initial segment of a line starts with `!pip`, so does the
stripped original line. -/
theorem strip_filter_mono (p l : List Char) (hinit : isInit p l)
    (h : startsWithPy (stripPy p) bangPip = true) :
    startsWithPy (stripPy l) bangPip = true := by
  have hpat : bangPip ≠ [] := by simp [bangPip]
  have hns : ∀ c ∈ bangPip, isSpacePy c = false := by decide
  have h1 : startsWithPy (p.dropWhile isSpacePy) bangPip = true :=
    startsWithPy_of_rstrip _ _ (by rwa [stripPy_eq] at h)
  have hlne : p.dropWhile isSpacePy ≠ [] := by
    rcases (startsWithPy_iff _ _).mp h1 with ⟨r, hr⟩
    intro hnil
    rw [hnil] at hr
    exact hpat (List.append_eq_nil.mp hr).1
  rcases hinit with ⟨r, rfl⟩
  have h2 : (p ++ r).dropWhile isSpacePy = p.dropWhile isSpacePy ++ r :=
    dropWhile_append_of_ne_nil _ _ _ hlne
  have h3 : startsWithPy ((p ++ r).dropWhile isSpacePy) bangPip = true := by
    rw [h2, startsWithPy_iff]
    exact isInit_extend r ((startsWithPy_iff _ _).mp h1)
  rw [stripPy_eq]
  exact startsWithPy_rstrip_of bangPip hpat hns _ h3

/-! ### Sanitizer lemmas: line lists of a sanitised text -/

theorem mem_splitlinesPy {txt l : List Char}
    (h : l ∈ splitlinesPy txt) : l ∈ splitNL txt := by
  rw [splitlinesPy] at h
  split at h
  · exact List.dropLast_subset _ h
  · exact h

theorem pyLines_no_nl {txt l : List Char} (h : l ∈ pyLines txt) : '\n' ∉ l := by
  rw [pyLines] at h
  exact nl_not_mem_splitNL txt l (mem_splitlinesPy (List.mem_filter.mp h).1)

theorem pyLines_pass {txt l : List Char} (h : l ∈ pyLines txt) :
    startsWithPy (stripPy l) bangPip = false := by
  rw [pyLines] at h
  simpa using (List.mem_filter.mp h).2

theorem map_eq_self_of {α : Type} (f : α → α) :
    ∀ (l : List α), (∀ a ∈ l, f a = a) → l.map f = l := by
  intro l
  induction l with
  | nil => intro _; rfl
  | cons a t ih =>
    intro hh
    rw [List.map_cons, hh a (by simp), ih (fun b hb => hh b (List.mem_cons_of_mem a hb))]

/-- Sanitising an already line-normal, filter-stable, per-line-fixed text
is the identity.  This is the heart of the amended idempotence claim. -/
theorem sanitize_joinNL_eq (ms : List (List Char)) (h0 : ms ≠ [])
    (hlast : ¬ ms.getLast? = some [])
    (hno : ∀ m ∈ ms, '\n' ∉ m)
    (hpass : ∀ m ∈ ms, startsWithPy (stripPy m) bangPip = false)
    (hid : ∀ m ∈ ms, sanitizeLine m = m) :
    sanitize (joinNL ms) = joinNL ms := by
  have hsplit : splitNL (joinNL ms) = ms := splitNL_joinNL ms h0 hno
  show joinNL ((pyLines (joinNL ms)).map sanitizeLine) = joinNL ms
  rw [pyLines]
  simp only [splitlinesPy]
  rw [hsplit, if_neg hlast,
    List.filter_eq_self.mpr (fun a ha => by simp [hpass a ha]),
    map_eq_self_of _ _ hid]

/-! ### C6: sanitizer idempotence -/

/-- C6 counterexample: the sanitizer is not idempotent.  On
`"a = 1\nprint(a)"` the first pass empties the `print` line, leaving
`"a = 1\n"`; the second pass, re-splitting the text, drops the trailing
empty line and yields `"a = 1"`. -/
theorem C6_counterexample :
    ¬ sanitize (sanitize c6txt) = sanitize c6txt := by decide

/-- C6 amended: the sanitizer is idempotent on every input whose
sanitised form does not end in a line feed; the only failure of full
idempotence is the removal of one trailing empty line per pass. -/
theorem C6_amended_idempotence (x : List Char)
    (h : ¬ (sanitize x).getLast? = some '\n') :
    sanitize (sanitize x) = sanitize x := by
  have hno : ∀ m ∈ (pyLines x).map sanitizeLine, '\n' ∉ m := by
    intro m hm
    rcases List.mem_map.mp hm with ⟨l, hl, rfl⟩
    exact sanitizeLine_no_nl (pyLines_no_nl hl)
  have hpass : ∀ m ∈ (pyLines x).map sanitizeLine,
      startsWithPy (stripPy m) bangPip = false := by
    intro m hm
    rcases List.mem_map.mp hm with ⟨l, hl, rfl⟩
    rcases hb : startsWithPy (stripPy (sanitizeLine l)) bangPip with _ | _
    · rfl
    · exact absurd (strip_filter_mono _ l (sanitizeLine_isInit l) hb)
        (by simp [pyLines_pass hl])
  have hid : ∀ m ∈ (pyLines x).map sanitizeLine, sanitizeLine m = m := by
    intro m hm
    rcases List.mem_map.mp hm with ⟨l, _, rfl⟩
    exact sanitizeLine_idem l
  rw [show sanitize x = joinNL ((pyLines x).map sanitizeLine) from rfl] at h ⊢
  generalize hms : (pyLines x).map sanitizeLine = ms at h hno hpass hid
  rcases ms with _ | ⟨m, rest⟩
  · rfl
  · rcases hLast : (m :: rest).getLast? with _ | last
    · simp at hLast
    · by_cases hl0 : last = []
      · subst hl0
        rcases rest with _ | ⟨m2, rest'⟩
        · have hm0 : m = [] := by simpa using hLast
          subst hm0
          rfl
        · have h2 : (m2 :: rest').getLast? = some [] := by
            rwa [List.getLast?_cons_cons] at hLast
          exact absurd (joinNL_trailing_nl rest' m m2 h2) h
      · exact sanitize_joinNL_eq (m :: rest) (by simp)
          (by rw [hLast]; simp [hl0]) hno hpass hid

/-- Witness for the amended C6 at a concrete two-line input with no
removable statements. -/
theorem C6_witness : sanitize (sanitize c6wit) = sanitize c6wit :=
  C6_amended_idempotence c6wit (by decide)

/-! ### C7: what the sanitizer removes -/

/-- C7 counterexample: on the single mixed line `"x = 1; print(x)"` —
not a statement whose sole effect is console output — the sanitised text
contains a line (`"x = 1; "`) that is neither an original line passed
through unchanged nor an emptied/removed line, so the claim's dichotomy
(remove the three statement classes, pass every other line through
unchanged) fails. -/
theorem C7_counterexample :
    ¬ (∀ l ∈ splitlinesPy (sanitize c7txt), l ∈ splitlinesPy c7txt ∨ l = []) := by
  decide

/-- C7 amended: the sanitizer drops `!pip` directive lines from the line
list; each surviving line containing `input(` is replaced by an empty
line; each surviving line is truncated at its first `print(` — so a mixed
line keeps only the text before the call — and every surviving line with
neither marker passes through unchanged, in order.  The first conjunct
relates the line structure of the output text to the per-line
transformation of the surviving lines. -/
theorem C7_amended_line_behaviour (txt : List Char) :
    (splitNL (sanitize txt) =
      if pyLines txt = [] then [[]] else (pyLines txt).map sanitizeLine) ∧
    (∀ l ∈ pyLines txt, containsSub inputPat l = false →
      containsSub printPat l = false → sanitizeLine l = l) ∧
    (∀ l, containsSub inputPat l = true → sanitizeLine l = []) ∧
    (∀ l, isInit (sanitizeLine l) l) := by
  refine ⟨?_, ?_, ?_, fun l => sanitizeLine_isInit l⟩
  · by_cases h0 : pyLines txt = []
    · rw [if_pos h0,
        show sanitize txt = joinNL ((pyLines txt).map sanitizeLine) from rfl, h0]
      rfl
    · rw [if_neg h0,
        show sanitize txt = joinNL ((pyLines txt).map sanitizeLine) from rfl]
      refine splitNL_joinNL _ (by simpa using h0) ?_
      intro m hm
      rcases List.mem_map.mp hm with ⟨l, hl, rfl⟩
      exact sanitizeLine_no_nl (pyLines_no_nl hl)
  · intro l _ hi hp
    simp only [sanitizeLine, subInput]
    rw [if_neg (by simp [hi])]
    simp only [subPrint]
    exact takeBefore_of_not_contains printPat l hp
  · intro l hi
    simp only [sanitizeLine, subInput]
    rw [if_pos hi]
    rfl

/-- Witness for the amended C7: a plain line passes through unchanged and
an interactive-input line is emptied. -/
theorem C7_witness :
    sanitizeLine ("z = 2".toList) = "z = 2".toList ∧
    sanitizeLine ("y = input()".toList) = [] := by
  constructor
  · exact (C7_amended_line_behaviour c7wit).2.1 ("z = 2".toList)
      (by decide) (by decide) (by decide)
  · exact (C7_amended_line_behaviour c7wit).2.2.1 ("y = input()".toList) (by decide)

end PipelineOpt
